import Mathlib

/-!
Shallow embedding of `subsearch.py`, a subtitle search tool for SRT and VTT
files.  Strings are modelled as `List Char` internally; Python string methods
are re-implemented with structural recursion (or an explicit fuel bounded by
the input length, so everything reduces in the kernel).  Machine floats are
modelled by `ℚ`: every comparison the program performs on parsed start times
and similarity ratios is inclusive and exact on the decimal values involved.
File I/O is replaced by passing file contents explicitly: a "file" is a pair
of a path string and a content string.
-/

/-- The ASCII whitespace characters of Python's `str.split()` / `strip()` /
regex `\s` (space, tab, newline, carriage return, vertical tab, form feed).
Unicode whitespace beyond ASCII is not modelled. -/
def wsChar (c : Char) : Bool :=
  c = ' ' || c = '\t' || c = '\n' || c = '\r' || c = '\x0b' || c = '\x0c'

/-- Python `str.strip()` with no arguments: drop whitespace on both ends. -/
def trimChars (l : List Char) : List Char :=
  ((l.dropWhile wsChar).reverse.dropWhile wsChar).reverse

/-- Python `str.split(sep)` for a single-character separator: keeps empty
pieces, e.g. `"::" → ["", "", ""]`. -/
def splitChar (sep : Char) (l : List Char) : List (List Char) :=
  l.foldr
    (fun c acc =>
      if c = sep then [] :: acc
      else
        match acc with
        | [] => [[c]]
        | g :: gs => (c :: g) :: gs)
    [[]]

/-- `content.split('\n')`. -/
def linesOf (l : List Char) : List (List Char) := splitChar '\n' l

/-- Python `str.split()` with no arguments: split on whitespace runs and drop
empty pieces. -/
def splitWsChar (l : List Char) : List (List Char) :=
  (l.foldr
    (fun c acc =>
      if wsChar c then [] :: acc
      else
        match acc with
        | [] => [[c]]
        | g :: gs => (c :: g) :: gs)
    [[]]).filter (· ≠ [])

/-- The piece of `l` before the first occurrence of (non-empty) `sep`:
`l.split(sep)[0]` in Python. If `sep` does not occur, all of `l`. -/
def takeBefore (sep : List Char) : List Char → List Char
  | [] => []
  | c :: rest =>
    if (c :: rest).take sep.length = sep then [] else c :: takeBefore sep rest

/-- Number of positions at which `sep` occurs in `l`. For the separators used
here (such as `-->`), which cannot overlap themselves, this is also the
number of non-overlapping occurrences. -/
def countSub (sep : List Char) : List Char → Nat
  | [] => 0
  | c :: rest =>
    (if (c :: rest).take sep.length = sep then 1 else 0) + countSub sep rest

/-- Python's `needle in hay` substring test (the empty needle is contained in
everything). -/
def pyContains (hay needle : String) : Bool :=
  needle.data = [] || countSub needle.data hay.data ≠ 0

/-- ASCII lower-casing of one character, modelling Python `str.lower()` on
the ASCII range (non-ASCII case mapping is not modelled). -/
def lowerChar (c : Char) : Char :=
  if 'A' ≤ c && c ≤ 'Z' then Char.ofNat (c.toNat + 32) else c

/-- Python `str.lower()`. -/
def pyLowerStr (s : String) : String := String.mk (s.data.map lowerChar)

/-- `'\n'.join(ls)`. -/
def joinNL : List (List Char) → List Char
  | [] => []
  | [l] => l
  | l :: l' :: ls => l ++ '\n' :: joinNL (l' :: ls)

def isDigitCh (c : Char) : Bool := '0' ≤ c && c ≤ '9'

def digitsToNat (cs : List Char) : Nat :=
  cs.foldl (fun n c => 10 * n + (c.toNat - 48)) 0

/-- Python `int(s)` on ASCII decimal literals: strip whitespace, optional
sign, one or more digits.  (Underscore digit grouping and non-ASCII digits
are not modelled.) -/
def pyInt? (s : List Char) : Option Int :=
  let cs := trimChars s
  match cs with
  | '+' :: rest =>
    if rest ≠ [] && rest.all isDigitCh then some (Int.ofNat (digitsToNat rest)) else none
  | '-' :: rest =>
    if rest ≠ [] && rest.all isDigitCh then some (-(Int.ofNat (digitsToNat rest))) else none
  | _ =>
    if cs ≠ [] && cs.all isDigitCh then some (Int.ofNat (digitsToNat cs)) else none

/-- Unsigned decimal part of Python `float(s)`: `digits`, `digits.`,
`digits.digits` or `.digits`.  Returns the integer-part value, the
fraction-part value and the fraction-part length. -/
def pyFloatFracParts? (cs : List Char) : Option (Nat × Nat × Nat) :=
  match splitChar '.' cs with
  | [ds] =>
    if ds ≠ [] && ds.all isDigitCh then some (digitsToNat ds, 0, 0) else none
  | [ds, fs] =>
    if (ds ≠ [] || fs ≠ []) && ds.all isDigitCh && fs.all isDigitCh then
      some (digitsToNat ds, digitsToNat fs, fs.length)
    else none
  | _ => none

/-- The numeric components recognised by Python `float(s)` on plain decimal
literals: strip whitespace, optional sign, decimal digits with at most one
dot.  (Exponent notation, `inf`/`nan` and underscore grouping are not
modelled; none arise in timestamp fields.)  The flag records a leading
minus sign. -/
def pyFloatParts? (s : List Char) : Option (Bool × Nat × Nat × Nat) :=
  let cs := trimChars s
  match cs with
  | '+' :: rest => (pyFloatFracParts? rest).map (fun p => (false, p))
  | '-' :: rest => (pyFloatFracParts? rest).map (fun p => (true, p))
  | _ => (pyFloatFracParts? cs).map (fun p => (false, p))

/-- The exact rational value of a parsed float literal. -/
def ratOfParts (p : Bool × Nat × Nat × Nat) : ℚ :=
  let q := (p.2.1 : ℚ) + (p.2.2.1 : ℚ) / (10 : ℚ) ^ p.2.2.2
  if p.1 then -q else q

/-- Python `float(s)` as an exact rational. -/
def pyFloat? (s : List Char) : Option ℚ :=
  (pyFloatParts? s).map ratOfParts

/-- One parsed caption unit, the dict `{'number', 'timestamp', 'text'}` built
by both parsers. -/
structure Cue where
  number : Int
  timestamp : String
  text : String
deriving DecidableEq, Repr

/-- The dataclass `SubtitleMatch`. -/
structure SubtitleMatch where
  file_path : String
  timestamp : String
  subtitle_number : Int
  text : String
deriving DecidableEq, Repr

/-- A line that is entirely whitespace (or empty). -/
def isWsLine (l : List Char) : Bool := l.all wsChar

/-- `re.split(r'\n\s*\n', content)`: pieces of the content separated by
blank-line boundaries (a newline, optional whitespace, a newline).  Modelled
by grouping the lines of the content at whitespace-only lines.  A run of
several consecutive blank lines yields extra empty pieces here where the
regex consumes the run as one separator; the parser skips empty pieces
(`if not block.strip(): continue`), so the parsed output is identical. -/
def splitBlocks (content : List Char) : List (List Char) :=
  ((linesOf content).foldr
    (fun l acc =>
      if isWsLine l then [] :: acc
      else
        match acc with
        | [] => [[l]]
        | g :: gs => (l :: g) :: gs)
    [[]]).map joinNL

/-- `parse_srt_file`, from the file's text content onward (the dual-encoding
read is I/O and is replaced by passing the decoded content): strip the
content, split into blocks at blank lines, and for each block of at least 3
lines whose first line parses as an integer emit a cue; line 2 stripped is
the timestamp, lines 3+ joined by newline and stripped are the text.
Malformed blocks are skipped. -/
def parse_srt (content : String) : List Cue :=
  let c := trimChars content.data
  (splitBlocks c).flatMap (fun block =>
    if trimChars block = [] then []
    else
      let ls := linesOf (trimChars block)
      if ls.length < 3 then []
      else
        match pyInt? (trimChars (ls.headD [])) with
        | none => []
        | some n =>
          [⟨n, String.mk (trimChars (ls.getD 1 [])),
            String.mk (trimChars (joinNL (ls.drop 2)))⟩])

/-- The header-line test of `parse_vtt_file`: `WEBVTT`, `NOTE`, `Kind:`,
`Language:` or blank (after stripping). -/
def vttHeaderLine (l : List Char) : Bool :=
  let t := trimChars l
  t.take 6 = "WEBVTT".data || t.take 4 = "NOTE".data ||
    t.take 5 = "Kind:".data || t.take 9 = "Language:".data || t = []

/-- The leading header-skip loop of `parse_vtt_file`. -/
def dropHeader : List (List Char) → List (List Char)
  | [] => []
  | l :: ls => if vttHeaderLine l then dropHeader ls else l :: ls

/-- Find the part after the first occurrence of the closing character, if
any. -/
def afterCloseCh (cl : Char) : List Char → Option (List Char)
  | [] => none
  | c :: rest => if c = cl then some rest else afterCloseCh cl rest

/-- `re.sub(r'<[^>]*>', '', l)` and `re.sub(r'\x7b[^\x7d]*\x7d', '', l)`:
remove every bracketed span from the opening character through the first
following closing character; an opening character with no later closing
character is kept.  Fuel bounded by the input length (each step consumes at
least one character), so the scan always runs to completion. -/
def stripEnclosedF (op cl : Char) : Nat → List Char → List Char
  | 0, l => l
  | _ + 1, [] => []
  | fuel + 1, c :: rest =>
    if c = op then
      match afterCloseCh cl rest with
      | some rest2 => stripEnclosedF op cl fuel rest2
      | none => c :: stripEnclosedF op cl fuel rest
    else c :: stripEnclosedF op cl fuel rest

/-- Remove VTT formatting tags `<...>`. -/
def stripTags (l : List Char) : List Char := stripEnclosedF '<' '>' l.length l

/-- Remove positioning spans between `\x7b` and `\x7d`. -/
def stripBraces (l : List Char) : List Char := stripEnclosedF '\x7b' '\x7d' l.length l

/-- `l.replace('&nbsp;', ' ')`, left to right, non-overlapping. -/
def replaceNbsp : List Char → List Char
  | '&' :: 'n' :: 'b' :: 's' :: 'p' :: ';' :: rest => ' ' :: replaceNbsp rest
  | c :: rest => c :: replaceNbsp rest
  | [] => []

def asciiLetter (c : Char) : Bool := ('a' ≤ c && c ≤ 'z') || ('A' ≤ c && c ≤ 'Z')

/-- `re.sub(r'&[a-zA-Z]+;', '', l)`: remove named HTML entities.  Fuel
bounded by the input length (each step consumes at least one character). -/
def stripEntitiesF : Nat → List Char → List Char
  | 0, l => l
  | _ + 1, [] => []
  | fuel + 1, c :: rest =>
    if c = '&' then
      match rest.dropWhile asciiLetter with
      | ';' :: rest2 =>
        if rest.takeWhile asciiLetter = [] then c :: stripEntitiesF fuel rest
        else stripEntitiesF fuel rest2
      | _ => c :: stripEntitiesF fuel rest
    else c :: stripEntitiesF fuel rest

def stripEntities (l : List Char) : List Char := stripEntitiesF l.length l

/-- The per-text-line cleanup of `parse_vtt_file`: strip the line, remove
`<...>` tags, remove `\x7b...\x7d` spans, replace `&nbsp;` by a space, then
remove other named HTML entities. -/
def cleanVttTextLine (l : List Char) : List Char :=
  stripEntities (replaceNbsp (stripBraces (stripTags (trimChars l))))

/-- Try to consume one of the cue-settings keywords `align:`, `position:`,
`size:`, `line:` at the head of the list, returning the remainder. -/
def dropKw (cs : List Char) : Option (List Char) :=
  if cs.take 6 = "align:".data then some (cs.drop 6)
  else if cs.take 9 = "position:".data then some (cs.drop 9)
  else if cs.take 5 = "size:".data then some (cs.drop 5)
  else if cs.take 5 = "line:".data then some (cs.drop 5)
  else none

/-- `re.sub(r'\s+(align|position|size|line):[^\s]+', '', l)`: at each
whitespace run followed directly by a settings keyword, a colon and at least
one non-whitespace character, remove the run, the keyword and the value.
Fuel bounded by the input length (each step consumes at least one
character). -/
def stripSettingsF : Nat → List Char → List Char
  | 0, l => l
  | _ + 1, [] => []
  | fuel + 1, c :: rest =>
    if wsChar c then
      match dropKw ((c :: rest).dropWhile wsChar) with
      | some rest2 =>
        match rest2.takeWhile (fun ch => !wsChar ch) with
        | [] => c :: stripSettingsF fuel rest
        | _ :: _ => stripSettingsF fuel (rest2.dropWhile (fun ch => !wsChar ch))
      | none => c :: stripSettingsF fuel rest
    else c :: stripSettingsF fuel rest

def stripSettings (l : List Char) : List Char := stripSettingsF l.length l

def dotToComma (c : Char) : Char := if c = '.' then ',' else c

/-- Normalization of a VTT time-range line: strip, remove cue-settings
tokens, then replace every `.` by `,`. -/
def vttNormalizeTime (l : List Char) : List Char :=
  (stripSettings (trimChars l)).map dotToComma

/-- The inner text-collection loop of `parse_vtt_file`: take lines up to (but
not consuming) the first blank line, clean each, and keep the non-empty
results.  Returns the collected text lines and the remaining lines. -/
def collectText : List (List Char) → List (List Char) × List (List Char)
  | [] => ([], [])
  | l :: ls =>
    if trimChars l = [] then ([], l :: ls)
    else
      let r := collectText ls
      (if cleanVttTextLine l = [] then r.1 else cleanVttTextLine l :: r.1, r.2)

/-- The main scan loop of `parse_vtt_file`: a line containing `-->` starts a
cue with the next sequential number; the cue is kept only if some cleaned
text line is non-empty (the number advances either way).  Fuel bounded by
the number of lines (each step consumes at least one line). -/
def vttLoopF : Nat → Int → List (List Char) → List Cue
  | 0, _, _ => []
  | _ + 1, _, [] => []
  | fuel + 1, num, l :: ls =>
    if countSub "-->".data l ≠ 0 then
      let ts := vttNormalizeTime l
      let tl := collectText ls
      if tl.1 ≠ [] then
        ⟨num + 1, String.mk ts, String.mk (joinNL tl.1)⟩ :: vttLoopF fuel (num + 1) tl.2
      else vttLoopF fuel (num + 1) tl.2
    else vttLoopF fuel num ls

/-- `parse_vtt_file`, from the file's text content onward: strip the content,
split into lines, skip the leading header lines, then scan for cues. -/
def parse_vtt (content : String) : List Cue :=
  let ls := linesOf (trimChars content.data)
  vttLoopF ls.length 0 (dropHeader ls)

/-- The extension (with leading dot) of `os.path.splitext`, for `/`-separated
paths: from the last dot of the basename, unless every character of the
basename before that dot is a dot. -/
def splitextExt (p : List Char) : List Char :=
  let base := (p.reverse.takeWhile (fun c => c ≠ '/')).reverse
  let extRev := base.reverse.takeWhile (fun c => c ≠ '.')
  if extRev.length = base.length then []
  else
    let stem := base.take (base.length - extRev.length - 1)
    if stem.all (fun c => c = '.') then [] else '.' :: extRev.reverse

/-- `parse_subtitle_file`: dispatch on the lower-cased file extension;
unsupported extensions yield no cues. -/
def parse_subtitle_file (file_path content : String) : List Cue :=
  let ext := (splitextExt file_path.data).map lowerChar
  if ext = ".srt".data then parse_srt content
  else if ext = ".vtt".data then parse_vtt content
  else []

/-- The word set of a text used by `text_similarity`:
`set(text.lower().split())`. -/
def wordSet (t : String) : Finset String :=
  ((splitWsChar (t.data.map lowerChar)).map String.mk).toFinset

/-- The nested `text_similarity` of `deduplicate_matches`: `1.0` if both
word sets are empty, `0.0` if (at least) one is, otherwise the size of the
intersection divided by the size of the union. -/
def text_similarity (text1 text2 : String) : ℚ :=
  let words1 := wordSet text1
  let words2 := wordSet text2
  if words1 = ∅ ∧ words2 = ∅ then 1
  else if words1 = ∅ ∨ words2 = ∅ then 0
  else ((words1 ∩ words2).card : ℚ) / ((words1 ∪ words2).card : ℚ)

/-- The nested `parse_timestamp` of `deduplicate_matches`: take the part of
the time range before the first `' --> '` (spaces included), replace `,` by
`.`, split on `:`, parse the first three fields as floats and combine; any
failure (too few fields or an unparseable field) yields `0.0`. -/
def parse_timestamp (timestamp : String) : ℚ :=
  let start_time := takeBefore " --> ".data timestamp.data
  let parts := splitChar ':' (start_time.map (fun c => if c = ',' then '.' else c))
  match parts with
  | p0 :: p1 :: p2 :: _ =>
    match pyFloat? p0, pyFloat? p1, pyFloat? p2 with
    | some hours, some minutes, some seconds => hours * 3600 + minutes * 60 + seconds
    | _, _, _ => 0
  | _ => 0

/-- The duplicate test applied to a candidate and one retained match.
Strict mode: high similarity and close in time, or very close in time with
moderate similarity.  Aggressive mode: high similarity or close in time.
All comparisons are inclusive. -/
def isDuplicatePair (strict_mode : Bool) (similarity_threshold time_window : ℚ)
    (current existing : SubtitleMatch) : Bool :=
  let similarity := text_similarity current.text existing.text
  let time_diff := |parse_timestamp current.timestamp - parse_timestamp existing.timestamp|
  if strict_mode then
    decide ((similarity_threshold ≤ similarity ∧ time_diff ≤ time_window) ∨
      (time_diff ≤ 2 ∧ (1 : ℚ) / 2 ≤ similarity))
  else
    decide (similarity_threshold ≤ similarity ∨ time_diff ≤ time_window)

/-- Grouping step of `deduplicate_matches`: insert one match into the
per-file groups (a Python dict in insertion order). -/
def addToGroups (gs : List (String × List SubtitleMatch)) (m : SubtitleMatch) :
    List (String × List SubtitleMatch) :=
  if gs.any (fun g => g.1 = m.file_path) then
    gs.map (fun g => if g.1 = m.file_path then (g.1, g.2 ++ [m]) else g)
  else gs ++ [(m.file_path, [m])]

/-- `file_groups`: matches grouped by file path, in first-encounter order of
the paths. -/
def groupByFile (ms : List SubtitleMatch) : List (String × List SubtitleMatch) :=
  ms.foldl addToGroups []

/-- Insert one match into a list already sorted by parsed start time,
placing it after every element whose start time is not greater (so the
overall sort is stable, like Python's `list.sort`). -/
def insertByTime (m : SubtitleMatch) : List SubtitleMatch → List SubtitleMatch
  | [] => [m]
  | b :: l =>
    if parse_timestamp m.timestamp < parse_timestamp b.timestamp then m :: b :: l
    else b :: insertByTime m l

/-- `file_matches.sort(key=lambda x: parse_timestamp(x.timestamp))`: the
stable sort by parsed start time (stable sorts by a fixed key are
extensionally unique, so insertion sort gives the same list as Python's
Timsort). -/
def sortByTime (ms : List SubtitleMatch) : List SubtitleMatch :=
  ms.foldl (fun acc m => insertByTime m acc) []

/-- The retained-list filter of `deduplicate_matches`: process candidates in
order, dropping a candidate that is a duplicate of some already-retained
match and appending it otherwise. -/
def filterDedupAux (strict_mode : Bool) (similarity_threshold time_window : ℚ)
    (acc : List SubtitleMatch) : List SubtitleMatch → List SubtitleMatch
  | [] => acc
  | c :: cs =>
    if acc.any (fun ex => isDuplicatePair strict_mode similarity_threshold time_window c ex) then
      filterDedupAux strict_mode similarity_threshold time_window acc cs
    else filterDedupAux strict_mode similarity_threshold time_window (acc ++ [c]) cs

def filterDedup (strict_mode : Bool) (similarity_threshold time_window : ℚ)
    (ms : List SubtitleMatch) : List SubtitleMatch :=
  filterDedupAux strict_mode similarity_threshold time_window [] ms

/-- `deduplicate_matches`: group by file path, sort each group by parsed
start time, filter each group against its retained list, and concatenate the
groups in first-encounter order. -/
def deduplicate_matches (ms : List SubtitleMatch)
    (similarity_threshold time_window : ℚ) (strict_mode : Bool) : List SubtitleMatch :=
  if ms = [] then ms
  else
    ((groupByFile ms).map
      (fun g => filterDedup strict_mode similarity_threshold time_window (sortByTime g.2))).flatten

/-- The per-cue matching step of `search_in_subtitle_files`: compare term and
text (lower-cased unless case-sensitive) by substring containment and emit a
match carrying the cue's original text. -/
def matchesOfCue (file_path search_term : String) (case_sensitive : Bool)
    (sub : Cue) : List SubtitleMatch :=
  let text := sub.text
  let search_text := if case_sensitive then text else pyLowerStr text
  let term := if case_sensitive then search_term else pyLowerStr search_term
  if pyContains search_text term then [⟨file_path, sub.timestamp, sub.number, text⟩]
  else []

/-- `search_in_subtitle_files`, with each file given as a (path, content)
pair in place of reading from disk: parse each file, collect a match for
every cue containing the term, then deduplicate if requested. -/
def search_in_subtitle_files (files : List (String × String)) (search_term : String)
    (case_sensitive deduplicate : Bool) (similarity_threshold time_window : ℚ)
    (strict_dedup : Bool) : List SubtitleMatch :=
  let found := files.flatMap (fun fp =>
    (parse_subtitle_file fp.1 fp.2).flatMap (matchesOfCue fp.1 search_term case_sensitive))
  if deduplicate then
    deduplicate_matches found similarity_threshold time_window strict_dedup
  else found

/-- Spec-side variant of `parse_timestamp`, following the spec's words: the
start time is "the substring before `-->`" (the bare arrow, without the
surrounding spaces the code's separator `' --> '` carries); the rest of the
procedure is identical.  Used to compare the spec's description with the
code's behaviour. -/
def parse_timestamp_spec (timestamp : String) : ℚ :=
  let start_time := takeBefore "-->".data timestamp.data
  let parts := splitChar ':' (start_time.map (fun c => if c = ',' then '.' else c))
  match parts with
  | p0 :: p1 :: p2 :: _ =>
    match pyFloat? p0, pyFloat? p1, pyFloat? p2 with
    | some hours, some minutes, some seconds => hours * 3600 + minutes * 60 + seconds
    | _, _, _ => 0
  | _ => 0

/-- Spec-side Jaccard index of two finite sets: intersection size divided by
union size. -/
def jaccardIndex (A B : Finset String) : ℚ :=
  ((A ∩ B).card : ℚ) / ((A ∪ B).card : ℚ)

/-- Number of occurrences of `-->` in a string (the canonical time-range
separator; `-->` cannot overlap itself, so this is the plain occurrence
count). -/
def arrowCount (s : String) : Nat := countSub "-->".data s.data

/-- The file paths of a match list in first-encounter order. -/
def firstPaths (ms : List SubtitleMatch) : List String :=
  ms.foldl (fun acc m => if m.file_path ∈ acc then acc else acc ++ [m.file_path]) []

/-- The ordering relation used for sorting and for the sortedness claims:
parsed start time of the first match is not greater than that of the
second. -/
def timeLE (a b : SubtitleMatch) : Prop :=
  parse_timestamp a.timestamp ≤ parse_timestamp b.timestamp

/-- Boolean test that a match carries the given file path. -/
def pathIs (p : String) (m : SubtitleMatch) : Bool := decide (m.file_path = p)

/-- The relation between an earlier retained match and a later one in a
deduplicated list: the later one is not judged a duplicate of the earlier
one. -/
def notDupOf (st : Bool) (thr tw : ℚ) (e c : SubtitleMatch) : Prop :=
  isDuplicatePair st thr tw c e = false

/-! ## Evaluation helpers

Rational arithmetic does not reduce definitionally, so concrete values of
`parse_timestamp` and `text_similarity` are obtained by first computing the
discrete parts by `decide` and then normalising the resulting rational
expression. -/

theorem pyFloat?_of_parts (cs : List Char) (a : Bool × Nat × Nat × Nat)
    (h : pyFloatParts? cs = some a) : pyFloat? cs = some (ratOfParts a) := by
  rw [pyFloat?, h]; rfl

theorem parse_timestamp_eval (ts : String) (p0 p1 p2 : List Char) (rest : List (List Char))
    (a0 a1 a2 : Bool × Nat × Nat × Nat)
    (hsplit : splitChar ':'
        ((takeBefore " --> ".data ts.data).map (fun c => if c = ',' then '.' else c))
      = p0 :: p1 :: p2 :: rest)
    (h0 : pyFloatParts? p0 = some a0) (h1 : pyFloatParts? p1 = some a1)
    (h2 : pyFloatParts? p2 = some a2) :
    parse_timestamp ts = ratOfParts a0 * 3600 + ratOfParts a1 * 60 + ratOfParts a2 := by
  rw [parse_timestamp, hsplit]
  simp only [pyFloat?_of_parts p0 a0 h0, pyFloat?_of_parts p1 a1 h1, pyFloat?_of_parts p2 a2 h2]

theorem parse_timestamp_spec_eval (ts : String) (p0 p1 p2 : List Char) (rest : List (List Char))
    (a0 a1 a2 : Bool × Nat × Nat × Nat)
    (hsplit : splitChar ':'
        ((takeBefore "-->".data ts.data).map (fun c => if c = ',' then '.' else c))
      = p0 :: p1 :: p2 :: rest)
    (h0 : pyFloatParts? p0 = some a0) (h1 : pyFloatParts? p1 = some a1)
    (h2 : pyFloatParts? p2 = some a2) :
    parse_timestamp_spec ts = ratOfParts a0 * 3600 + ratOfParts a1 * 60 + ratOfParts a2 := by
  rw [parse_timestamp_spec, hsplit]
  simp only [pyFloat?_of_parts p0 a0 h0, pyFloat?_of_parts p1 a1 h1, pyFloat?_of_parts p2 a2 h2]

theorem text_similarity_eval (t1 t2 : String) (i u : Nat)
    (h1 : wordSet t1 ≠ ∅) (h2 : wordSet t2 ≠ ∅)
    (hi : (wordSet t1 ∩ wordSet t2).card = i) (hu : (wordSet t1 ∪ wordSet t2).card = u) :
    text_similarity t1 t2 = (i : ℚ) / (u : ℚ) := by
  rw [text_similarity]
  rw [if_neg (by exact fun h => h1 h.1), if_neg (by exact fun h => h.elim h1 h2), hi, hu]


/-! ## Structural lemmas about the VTT scan loop -/

theorem collectText_snd_sublist (ls : List (List Char)) : (collectText ls).2.Sublist ls := by
  induction ls with
  | nil => simp [collectText]
  | cons l ls ih =>
    rw [collectText]
    by_cases h : trimChars l = []
    · rw [if_pos h]
    · rw [if_neg h]
      exact ih.cons l

theorem dropHeader_sublist (ls : List (List Char)) : (dropHeader ls).Sublist ls := by
  induction ls with
  | nil => exact List.Sublist.refl _
  | cons l ls ih =>
    rw [dropHeader]
    by_cases h : vttHeaderLine l
    · rw [if_pos h]; exact ih.cons l
    · rw [if_neg h]

/-- Every cue the VTT scan loop emits takes its timestamp from the
normalization of some input line that contains `-->`. -/
theorem vttLoopF_timestamp_origin (fuel : Nat) :
    ∀ (num : Int) (lines : List (List Char)) (c : Cue), c ∈ vttLoopF fuel num lines →
      ∃ l ∈ lines, countSub "-->".data l ≠ 0 ∧ c.timestamp = String.mk (vttNormalizeTime l) := by
  induction fuel with
  | zero => intro num lines c h; simp [vttLoopF] at h
  | succ fuel ih =>
    intro num lines c h
    match lines with
    | [] => simp [vttLoopF] at h
    | l :: ls =>
      rw [vttLoopF] at h
      by_cases harrow : countSub "-->".data l ≠ 0
      · rw [if_pos harrow] at h
        by_cases htl : (collectText ls).1 ≠ []
        · rw [if_pos htl] at h
          rcases List.mem_cons.mp h with hc | hc
          · exact ⟨l, List.mem_cons_self l ls, harrow, by rw [hc]⟩
          · obtain ⟨l', hl', h1, h2⟩ := ih _ _ _ hc
            exact ⟨l', List.mem_cons_of_mem l ((collectText_snd_sublist ls).subset hl'), h1, h2⟩
        · rw [if_neg htl] at h
          obtain ⟨l', hl', h1, h2⟩ := ih _ _ _ h
          exact ⟨l', List.mem_cons_of_mem l ((collectText_snd_sublist ls).subset hl'), h1, h2⟩
      · rw [if_neg harrow] at h
        obtain ⟨l', hl', h1, h2⟩ := ih _ _ _ h
        exact ⟨l', List.mem_cons_of_mem l hl', h1, h2⟩

/-- C1, counterexample.  The SRT parser performs no validation of the
time-range line: a block whose second line is `notime` yields a cue whose
`timestamp` contains no `-->` at all.  The VTT parser is not safe either:
the settings-stripping regex can consume the only `-->` of the cue line
(`a align:-->b`), again yielding a cue whose timestamp has no separator. -/
theorem C1_counterexample :
    parse_srt "1\nnotime\nhello" = [⟨1, "notime", "hello"⟩] ∧
    arrowCount "notime" = 0 ∧
    parse_vtt "WEBVTT\n\na align:-->b\nhello" = [⟨1, "a", "hello"⟩] ∧
    arrowCount "a" = 0 := by
  refine ⟨by decide, by decide, by decide, by decide⟩

/-- C1, amended: every cue the VTT parser produces draws its `timeRange`
from an input line that contained at least one `-->` before normalization
(the normalized form can have a different count of `-->`); the SRT parser
copies the block's second line without any check, so SRT cues may carry any
number of `-->` separators, including zero. -/
theorem C1_amended (content : String) (c : Cue) (hc : c ∈ parse_vtt content) :
    ∃ l ∈ linesOf (trimChars content.data),
      countSub "-->".data l ≠ 0 ∧ c.timestamp = String.mk (vttNormalizeTime l) := by
  obtain ⟨l, hl, h1, h2⟩ := vttLoopF_timestamp_origin _ _ _ _ hc
  exact ⟨l, (dropHeader_sublist _).subset hl, h1, h2⟩

theorem C1_witness :
    ∃ l ∈ linesOf (trimChars "WEBVTT\n\n00:00:01.000 --> 00:00:02.000\nhi".data),
      countSub "-->".data l ≠ 0 ∧
        (⟨1, "00:00:01,000 --> 00:00:02,000", "hi"⟩ : Cue).timestamp
          = String.mk (vttNormalizeTime l) :=
  C1_amended "WEBVTT\n\n00:00:01.000 --> 00:00:02.000\nhi"
    ⟨1, "00:00:01,000 --> 00:00:02,000", "hi"⟩ (by decide)

/-- C9: the VTT time-range line is normalized by stripping cue-settings
tokens and turning the `.` millisecond separator into `,` (the spec's
example evaluates as stated); text lines lose `<...>` markup and `{...}`
spans, `&nbsp;` becomes a space, and other named entities are removed; and a
cue all of whose text lines are empty after cleanup produces no Cue (while
still consuming a sequence number). -/
theorem C9_vtt_normalization :
    vttNormalizeTime "00:00:01.500 --> 00:00:03.000 align:start position:50%".data
        = "00:00:01,500 --> 00:00:03,000".data ∧
    cleanVttTextLine "hello <i>world</i>".data = "hello world".data ∧
    cleanVttTextLine "\x7bpos\x7da&nbsp;b&amp;".data = "a b".data ∧
    parse_vtt "WEBVTT\n\n00:00:01.000 --> 00:00:02.000\n<i></i>\n\n00:00:03.000 --> 00:00:04.000\nhi"
        = [⟨2, "00:00:03,000 --> 00:00:04,000", "hi"⟩] ∧
    ∀ (fuel : Nat) (num : Int) (l : List Char) (ls : List (List Char)),
      countSub "-->".data l ≠ 0 → (collectText ls).1 = [] →
        vttLoopF (fuel + 1) num (l :: ls) = vttLoopF fuel (num + 1) (collectText ls).2 := by
  refine ⟨by decide, by decide, by decide, by decide, ?_⟩
  intro fuel num l ls harrow hempty
  rw [vttLoopF, if_pos harrow, if_neg (by simp [hempty])]

theorem C9_witness :
    vttLoopF 2 0 ["x --> y".data, "<i></i>".data]
      = vttLoopF 1 1 (collectText ["<i></i>".data]).2 :=
  C9_vtt_normalization.2.2.2.2 1 0 "x --> y".data ["<i></i>".data] (by decide) (by decide)

/-! ## SRT round-trip (C4) -/

/-- C4, counterexample.  The timestamp of a parsed SRT cue is line 2 of the
block *stripped of surrounding whitespace*, not line 2 verbatim: the block
`"1\n a \nx"` has `" a "` as its second line, but the cue carries `"a"`. -/
theorem C4_counterexample :
    parse_srt "1\n a \nx" = [⟨1, "a", "x"⟩] ∧
    (linesOf (trimChars "1\n a \nx".data)).getD 1 [] = " a ".data ∧
    ("a" : String) ≠ " a " := by
  refine ⟨by decide, by decide, by decide⟩

/-- C4, amended: for every block produced by the blank-line split whose
stripped form has at least 3 lines and whose first line parses as an
integer, the parsed cue's text is lines 3 onward joined by newline and
trimmed, and its timeRange is the block's line 2 *stripped* (not
verbatim). -/
theorem C4_amended (content : String) (block : List Char) (n : Int)
    (hb : block ∈ splitBlocks (trimChars content.data))
    (hlen : 3 ≤ (linesOf (trimChars block)).length)
    (hn : pyInt? (trimChars ((linesOf (trimChars block)).headD [])) = some n) :
    (⟨n, String.mk (trimChars ((linesOf (trimChars block)).getD 1 [])),
      String.mk (trimChars (joinNL ((linesOf (trimChars block)).drop 2)))⟩ : Cue)
      ∈ parse_srt content := by
  rw [parse_srt]
  refine List.mem_flatMap.mpr ⟨block, hb, ?_⟩
  have hne : ¬trimChars block = [] := by
    intro h
    rw [h] at hlen
    simp [linesOf, splitChar] at hlen
  rw [if_neg hne, if_neg (by omega), hn]
  exact List.mem_singleton.mpr rfl

theorem C4_witness :
    (⟨2,
      String.mk (trimChars ((linesOf
        (trimChars "2\n00:00:03,000 --> 00:00:04,000\nbye".data)).getD 1 [])),
      String.mk (trimChars (joinNL ((linesOf
        (trimChars "2\n00:00:03,000 --> 00:00:04,000\nbye".data)).drop 2)))⟩ : Cue)
      ∈ parse_srt "1\n00:00:01,000 --> 00:00:02,000\nhello world\n\n2\n00:00:03,000 --> 00:00:04,000\nbye" :=
  C4_amended "1\n00:00:01,000 --> 00:00:02,000\nhello world\n\n2\n00:00:03,000 --> 00:00:04,000\nbye"
    "2\n00:00:03,000 --> 00:00:04,000\nbye".data 2 (by decide) (by decide) (by decide)

/-! ## Timestamp parsing in deduplication (C3) -/

/-- C3, counterexample.  The code splits the time range on the five-character
separator `' --> '` (spaces included), not on the bare `'-->'` the claim
describes: on `"0:0:1-->x"` the code fails to separate the start time and
falls back to `0.0`, while the claimed procedure (substring before `-->`)
would yield `1.0`. -/
theorem C3_counterexample :
    parse_timestamp "0:0:1-->x" = 0 ∧ parse_timestamp_spec "0:0:1-->x" = 1 := by
  constructor
  · decide
  · rw [parse_timestamp_spec_eval "0:0:1-->x" "0".data "0".data "1".data []
      (false, 0, 0, 0) (false, 0, 0, 0) (false, 1, 0, 0)
      (by decide) (by decide) (by decide) (by decide)]
    norm_num [ratOfParts]

/-- C3, amended: the start time used by the deduplicator is obtained by
splitting the timestamp on the full separator `' --> '` (with its
surrounding spaces) and taking the part before the first occurrence,
replacing `,` by `.`, splitting on `:` and combining the first three fields
parsed as floats as `H*3600 + M*60 + S`; whenever any of this fails the
start time is `0.0`, and the function is total (no exception escapes). -/
theorem C3_amended (ts : String) :
    (∃ p0 p1 p2 rest q0 q1 q2,
        splitChar ':'
            ((takeBefore " --> ".data ts.data).map (fun c => if c = ',' then '.' else c))
          = p0 :: p1 :: p2 :: rest ∧
        pyFloat? p0 = some q0 ∧ pyFloat? p1 = some q1 ∧ pyFloat? p2 = some q2 ∧
        parse_timestamp ts = q0 * 3600 + q1 * 60 + q2) ∨
      parse_timestamp ts = 0 := by
  rw [parse_timestamp]
  rcases hsplit : splitChar ':'
      ((takeBefore " --> ".data ts.data).map (fun c => if c = ',' then '.' else c)) with
    _ | ⟨p0, _ | ⟨p1, _ | ⟨p2, rest⟩⟩⟩
  · exact Or.inr rfl
  · exact Or.inr rfl
  · exact Or.inr rfl
  · rcases h0 : pyFloat? p0 with _ | q0
    · right; simp [h0]
    · rcases h1 : pyFloat? p1 with _ | q1
      · right; simp [h0, h1]
      · rcases h2 : pyFloat? p2 with _ | q2
        · right; simp [h0, h1, h2]
        · left
          exact ⟨p0, p1, p2, rest, q0, q1, q2, rfl, h0, h1, h2, by simp [h0, h1, h2]⟩

/-! ## Text similarity (C7) and the duplicate decision (C2) -/

/-- C7: the similarity the deduplicator uses is the Jaccard index of the
lower-cased whitespace-tokenized word sets (intersection size over union
size), with the value forced to `1.0` when both word sets are empty and
`0.0` when exactly one of them is. -/
theorem C7_similarity_is_jaccard (t1 t2 : String) :
    (text_similarity t1 t2 =
      if wordSet t1 = ∅ ∧ wordSet t2 = ∅ then 1
      else jaccardIndex (wordSet t1) (wordSet t2)) ∧
    (wordSet t1 = ∅ → wordSet t2 = ∅ → text_similarity t1 t2 = 1) ∧
    (wordSet t1 = ∅ → wordSet t2 ≠ ∅ → text_similarity t1 t2 = 0) ∧
    (wordSet t1 ≠ ∅ → wordSet t2 = ∅ → text_similarity t1 t2 = 0) := by
  refine ⟨?_, ?_, ?_, ?_⟩
  · rw [text_similarity]
    by_cases hboth : wordSet t1 = ∅ ∧ wordSet t2 = ∅
    · rw [if_pos hboth, if_pos hboth]
    · rw [if_neg hboth, if_neg hboth]
      by_cases hone : wordSet t1 = ∅ ∨ wordSet t2 = ∅
      · rw [if_pos hone, jaccardIndex]
        rcases hone with h | h
        · rw [h, Finset.empty_inter]
          simp
        · rw [h, Finset.inter_empty]
          simp
      · rw [if_neg hone, jaccardIndex]
  · intro h1 h2
    rw [text_similarity, if_pos ⟨h1, h2⟩]
  · intro h1 h2
    rw [text_similarity, if_neg (fun h => h2 h.2), if_pos (Or.inl h1)]
  · intro h1 h2
    rw [text_similarity, if_neg (fun h => h1 h.1), if_pos (Or.inr h2)]

theorem C7_witness : text_similarity "" "x" = 0 :=
  (C7_similarity_is_jaccard "" "x").2.2.1 (by decide) (by decide)

/-- C2: in strict mode a candidate is judged a duplicate of a retained match
exactly when `(similarity ≥ threshold ∧ time_distance ≤ window)` or
`(time_distance ≤ 2 ∧ similarity ≥ 1/2)`; in aggressive mode exactly when
`similarity ≥ threshold ∨ time_distance ≤ window`; all comparisons are
inclusive, so similarity exactly at the threshold together with time
distance exactly at the window is a duplicate in both modes. -/
theorem C2_duplicate_rule (st : Bool) (thr tw : ℚ) (cur ex : SubtitleMatch) :
    (isDuplicatePair st thr tw cur ex = true ↔
      (if st = true then
        (thr ≤ text_similarity cur.text ex.text ∧
          |parse_timestamp cur.timestamp - parse_timestamp ex.timestamp| ≤ tw) ∨
        (|parse_timestamp cur.timestamp - parse_timestamp ex.timestamp| ≤ 2 ∧
          (1 : ℚ) / 2 ≤ text_similarity cur.text ex.text)
      else
        thr ≤ text_similarity cur.text ex.text ∨
          |parse_timestamp cur.timestamp - parse_timestamp ex.timestamp| ≤ tw)) ∧
    (text_similarity cur.text ex.text = thr →
      |parse_timestamp cur.timestamp - parse_timestamp ex.timestamp| = tw →
      isDuplicatePair true thr tw cur ex = true ∧ isDuplicatePair false thr tw cur ex = true) := by
  constructor
  · rw [isDuplicatePair]
    cases st with
    | false => simp
    | true => simp
  · intro hs ht
    constructor
    · simp [isDuplicatePair, hs, ht]
    · simp [isDuplicatePair, hs, ht]

theorem C2_witness :
    isDuplicatePair true (4/5) 30
        ⟨"f.vtt", "0:0:0 --> x", 1, "a b c d"⟩ ⟨"f.vtt", "0:0:30 --> x", 2, "a b c d e"⟩ = true ∧
    isDuplicatePair false (4/5) 30
        ⟨"f.vtt", "0:0:0 --> x", 1, "a b c d"⟩ ⟨"f.vtt", "0:0:30 --> x", 2, "a b c d e"⟩ = true := by
  have hs : text_similarity "a b c d" "a b c d e" = 4/5 := by
    rw [text_similarity_eval "a b c d" "a b c d e" 4 5
      (by decide) (by decide) (by decide) (by decide)]
    norm_num
  have h1 : parse_timestamp "0:0:0 --> x" = 0 := by
    rw [parse_timestamp_eval "0:0:0 --> x" "0".data "0".data "0".data []
      (false, 0, 0, 0) (false, 0, 0, 0) (false, 0, 0, 0)
      (by decide) (by decide) (by decide) (by decide)]
    norm_num [ratOfParts]
  have h2 : parse_timestamp "0:0:30 --> x" = 30 := by
    rw [parse_timestamp_eval "0:0:30 --> x" "0".data "0".data "30".data []
      (false, 0, 0, 0) (false, 0, 0, 0) (false, 30, 0, 0)
      (by decide) (by decide) (by decide) (by decide)]
    norm_num [ratOfParts]
  exact (C2_duplicate_rule true (4/5) 30
      ⟨"f.vtt", "0:0:0 --> x", 1, "a b c d"⟩ ⟨"f.vtt", "0:0:30 --> x", 2, "a b c d e"⟩).2
    (by exact hs) (by rw [h1, h2]; norm_num)

/-! ## Grouping by file path -/

theorem firstPaths_append_one (ms : List SubtitleMatch) (m : SubtitleMatch) :
    firstPaths (ms ++ [m]) =
      if m.file_path ∈ firstPaths ms then firstPaths ms
      else firstPaths ms ++ [m.file_path] := by
  rw [firstPaths, firstPaths, List.foldl_append]
  rfl

theorem groupByFile_append_one (ms : List SubtitleMatch) (m : SubtitleMatch) :
    groupByFile (ms ++ [m]) = addToGroups (groupByFile ms) m := by
  rw [groupByFile, groupByFile, List.foldl_append]
  rfl

theorem mem_firstPaths (ms : List SubtitleMatch) :
    ∀ p, p ∈ firstPaths ms ↔ ∃ m ∈ ms, m.file_path = p := by
  induction ms using List.reverseRecOn with
  | nil => intro p; simp [firstPaths]
  | append_singleton ms m ih =>
    intro p
    rw [firstPaths_append_one]
    by_cases hmem : m.file_path ∈ firstPaths ms
    · rw [if_pos hmem, ih]
      constructor
      · rintro ⟨m', hm', he⟩; exact ⟨m', List.mem_append_left _ hm', he⟩
      · rintro ⟨m', hm', he⟩
        rcases List.mem_append.mp hm' with h | h
        · exact ⟨m', h, he⟩
        · rcases List.mem_singleton.mp h with rfl
          exact (ih p).mp (by rwa [he] at hmem)
    · rw [if_neg hmem, List.mem_append, ih, List.mem_singleton]
      constructor
      · rintro (⟨m', hm', he⟩ | he)
        · exact ⟨m', List.mem_append_left _ hm', he⟩
        · exact ⟨m, List.mem_append_right _ (List.mem_singleton_self m), he.symm⟩
      · rintro ⟨m', hm', he⟩
        rcases List.mem_append.mp hm' with h | h
        · exact Or.inl ⟨m', h, he⟩
        · rcases List.mem_singleton.mp h with rfl; exact Or.inr he.symm

theorem firstPaths_nodup (ms : List SubtitleMatch) : (firstPaths ms).Nodup := by
  induction ms using List.reverseRecOn with
  | nil => simp [firstPaths]
  | append_singleton ms m ih =>
    rw [firstPaths_append_one]
    by_cases hmem : m.file_path ∈ firstPaths ms
    · rwa [if_pos hmem]
    · rw [if_neg hmem]
      refine List.Nodup.append ih (List.nodup_singleton _) ?_
      intro a ha hb
      rcases List.mem_singleton.mp hb with rfl
      exact hmem ha

theorem filter_pathIs_eq_nil (ms : List SubtitleMatch) (p : String)
    (h : p ∉ firstPaths ms) : ms.filter (pathIs p) = [] := by
  refine List.filter_eq_nil_iff.mpr ?_
  intro m hm hpm
  exact h ((mem_firstPaths ms p).mpr ⟨m, hm, of_decide_eq_true hpm⟩)

/-- The dict built by `deduplicate_matches` maps each file path (in
first-encounter order) to the sublist of matches with that path. -/
theorem groupByFile_eq (ms : List SubtitleMatch) :
    groupByFile ms = (firstPaths ms).map (fun p => (p, ms.filter (pathIs p))) := by
  induction ms using List.reverseRecOn with
  | nil => rfl
  | append_singleton ms m ih =>
    rw [groupByFile_append_one, ih, firstPaths_append_one, addToGroups]
    by_cases hmem : m.file_path ∈ firstPaths ms
    · have hany : ((firstPaths ms).map (fun p => (p, ms.filter (pathIs p)))).any
          (fun g => g.1 = m.file_path) = true := by
        rw [List.any_eq_true]
        refine ⟨(m.file_path, ms.filter (pathIs m.file_path)), ?_, by simp⟩
        exact List.mem_map.mpr ⟨m.file_path, hmem, rfl⟩
      rw [hany, if_pos rfl, if_pos hmem, List.map_map]
      refine List.map_congr_left ?_
      intro p hp
      simp only [Function.comp_apply]
      by_cases hpm : p = m.file_path
      · rw [if_pos hpm, List.filter_append, List.filter_singleton]
        simp [pathIs, hpm]
      · rw [if_neg hpm, List.filter_append, List.filter_singleton]
        have : ¬m.file_path = p := fun h => hpm h.symm
        simp [pathIs, this]
    · have hany : ((firstPaths ms).map (fun p => (p, ms.filter (pathIs p)))).any
          (fun g => g.1 = m.file_path) = false := by
        rw [List.any_eq_false]
        rintro ⟨q, l⟩ hg
        rcases List.mem_map.mp hg with ⟨p, hp, he⟩
        cases he
        simp only [decide_eq_true_eq]
        exact fun h => hmem (h ▸ hp)
      rw [hany, if_neg (by simp), if_neg hmem, List.map_append, List.map_singleton]
      congr 1
      · refine List.map_congr_left ?_
        intro p hp
        have hpm : ¬m.file_path = p := fun h => hmem (h ▸ hp)
        rw [List.filter_append, List.filter_singleton]
        simp [pathIs, hpm]
      · rw [List.filter_append, List.filter_singleton, filter_pathIs_eq_nil ms _ hmem]
        simp [pathIs]

/-! ## The stable sort by parsed start time -/

theorem insertByTime_perm (m : SubtitleMatch) (l : List SubtitleMatch) :
    (insertByTime m l).Perm (m :: l) := by
  induction l with
  | nil => exact List.Perm.refl _
  | cons b l ih =>
    rw [insertByTime]
    by_cases h : parse_timestamp m.timestamp < parse_timestamp b.timestamp
    · rw [if_pos h]
    · rw [if_neg h]
      exact (ih.cons b).trans (List.Perm.swap m b l)

theorem sortByTime_perm (ms : List SubtitleMatch) : (sortByTime ms).Perm ms := by
  suffices h : ∀ (l acc : List SubtitleMatch),
      (l.foldl (fun acc m => insertByTime m acc) acc).Perm (l ++ acc) by
    simpa using h ms []
  intro l
  induction l with
  | nil => intro acc; simp
  | cons m l ih =>
    intro acc
    rw [List.foldl_cons]
    refine (ih (insertByTime m acc)).trans ?_
    refine (List.Perm.append_left l (insertByTime_perm m acc)).trans ?_
    exact List.perm_middle

theorem mem_insertByTime (x m : SubtitleMatch) (l : List SubtitleMatch) :
    x ∈ insertByTime m l ↔ x = m ∨ x ∈ l := by
  rw [(insertByTime_perm m l).mem_iff, List.mem_cons]

theorem insertByTime_sorted (m : SubtitleMatch) (l : List SubtitleMatch)
    (h : l.Pairwise timeLE) : (insertByTime m l).Pairwise timeLE := by
  induction l with
  | nil => simp [insertByTime, List.pairwise_singleton]
  | cons b l ih =>
    rw [insertByTime]
    rcases List.pairwise_cons.mp h with ⟨hb, hl⟩
    by_cases hlt : parse_timestamp m.timestamp < parse_timestamp b.timestamp
    · rw [if_pos hlt]
      refine List.pairwise_cons.mpr ⟨?_, h⟩
      intro x hx
      rcases List.mem_cons.mp hx with rfl | hx
      · exact le_of_lt hlt
      · exact le_trans (le_of_lt hlt) (hb x hx)
    · rw [if_neg hlt]
      refine List.pairwise_cons.mpr ⟨?_, ih hl⟩
      intro x hx
      rcases (mem_insertByTime x m l).mp hx with rfl | hx
      · exact not_lt.mp hlt
      · exact hb x hx

theorem sortByTime_sorted (ms : List SubtitleMatch) : (sortByTime ms).Pairwise timeLE := by
  suffices h : ∀ (l acc : List SubtitleMatch), acc.Pairwise timeLE →
      (l.foldl (fun acc m => insertByTime m acc) acc).Pairwise timeLE from
    h ms [] List.Pairwise.nil
  intro l
  induction l with
  | nil => intro acc hacc; exact hacc
  | cons m l ih =>
    intro acc hacc
    rw [List.foldl_cons]
    exact ih _ (insertByTime_sorted m acc hacc)

theorem insertByTime_append (m : SubtitleMatch) (acc : List SubtitleMatch)
    (h : ∀ a ∈ acc, timeLE a m) : insertByTime m acc = acc ++ [m] := by
  induction acc with
  | nil => rfl
  | cons b acc ih =>
    rw [insertByTime, if_neg (not_lt.mpr (h b (List.mem_cons_self b acc))), List.cons_append]
    rw [ih (fun a ha => h a (List.mem_cons_of_mem b ha))]

/-- A stable sort leaves an already-sorted list unchanged. -/
theorem sortByTime_of_sorted (ms : List SubtitleMatch) (h : ms.Pairwise timeLE) :
    sortByTime ms = ms := by
  suffices hgen : ∀ (l acc : List SubtitleMatch), (acc ++ l).Pairwise timeLE →
      l.foldl (fun acc m => insertByTime m acc) acc = acc ++ l by
    simpa using hgen ms [] (by simpa using h)
  intro l
  induction l with
  | nil => intro acc _; simp
  | cons m l ih =>
    intro acc hacc
    have hins : insertByTime m acc = acc ++ [m] := by
      refine insertByTime_append m acc ?_
      intro a ha
      have := (List.pairwise_append.mp hacc).2.2
      exact this a ha m (List.mem_cons_self m l)
    rw [List.foldl_cons, hins, ih (acc ++ [m]) (by rwa [List.append_assoc, List.singleton_append])]
    rw [List.append_assoc, List.singleton_append]

/-! ## The retained-list filter -/

theorem filterDedupAux_append_sublist (st : Bool) (thr tw : ℚ) :
    ∀ (l acc : List SubtitleMatch),
      ∃ t, filterDedupAux st thr tw acc l = acc ++ t ∧ t.Sublist l := by
  intro l
  induction l with
  | nil => intro acc; exact ⟨[], by simp [filterDedupAux], List.nil_sublist []⟩
  | cons c cs ih =>
    intro acc
    rw [filterDedupAux]
    by_cases h : acc.any (fun ex => isDuplicatePair st thr tw c ex) = true
    · rw [if_pos h]
      obtain ⟨t, ht, hsub⟩ := ih acc
      exact ⟨t, ht, hsub.cons c⟩
    · rw [if_neg h]
      obtain ⟨t, ht, hsub⟩ := ih (acc ++ [c])
      exact ⟨c :: t, by rw [ht, List.append_assoc, List.singleton_append], hsub.cons₂ c⟩

theorem filterDedup_sublist (st : Bool) (thr tw : ℚ) (l : List SubtitleMatch) :
    (filterDedup st thr tw l).Sublist l := by
  obtain ⟨t, ht, hsub⟩ := filterDedupAux_append_sublist st thr tw l []
  rw [filterDedup, ht, List.nil_append]
  exact hsub

theorem filterDedup_ne_nil (st : Bool) (thr tw : ℚ) (c : SubtitleMatch)
    (cs : List SubtitleMatch) : filterDedup st thr tw (c :: cs) ≠ [] := by
  rw [filterDedup, filterDedupAux, if_neg (by simp)]
  simp only [List.nil_append]
  obtain ⟨t, ht, _⟩ := filterDedupAux_append_sublist st thr tw cs [c]
  rw [ht]
  simp

theorem filterDedupAux_pairwise (st : Bool) (thr tw : ℚ) :
    ∀ (l acc : List SubtitleMatch), acc.Pairwise (notDupOf st thr tw) →
      (filterDedupAux st thr tw acc l).Pairwise (notDupOf st thr tw) := by
  intro l
  induction l with
  | nil => intro acc hacc; exact hacc
  | cons c cs ih =>
    intro acc hacc
    rw [filterDedupAux]
    by_cases h : acc.any (fun ex => isDuplicatePair st thr tw c ex) = true
    · rw [if_pos h]; exact ih acc hacc
    · rw [if_neg h]
      refine ih (acc ++ [c]) ?_
      rw [List.pairwise_append]
      refine ⟨hacc, List.pairwise_singleton _ _, ?_⟩
      intro e he x hx
      rcases List.mem_singleton.mp hx with rfl
      have := List.any_eq_false.mp (Bool.of_not_eq_true h) e he
      exact Bool.of_not_eq_true this

theorem filterDedup_pairwise (st : Bool) (thr tw : ℚ) (l : List SubtitleMatch) :
    (filterDedup st thr tw l).Pairwise (notDupOf st thr tw) :=
  filterDedupAux_pairwise st thr tw l [] List.Pairwise.nil

/-- On a list in which no element is judged a duplicate of an earlier one,
the retained-list filter keeps everything. -/
theorem filterDedupAux_of_clean (st : Bool) (thr tw : ℚ) :
    ∀ (l acc : List SubtitleMatch), l.Pairwise (notDupOf st thr tw) →
      (∀ c ∈ l, ∀ e ∈ acc, isDuplicatePair st thr tw c e = false) →
      filterDedupAux st thr tw acc l = acc ++ l := by
  intro l
  induction l with
  | nil => intro acc _ _; simp [filterDedupAux]
  | cons c cs ih =>
    intro acc hpw hacc
    rw [filterDedupAux]
    have hany : acc.any (fun ex => isDuplicatePair st thr tw c ex) = false := by
      rw [List.any_eq_false]
      intro e he
      rw [hacc c (List.mem_cons_self c cs) e he]
      simp
    rw [hany, if_neg (by simp)]
    rcases List.pairwise_cons.mp hpw with ⟨hc, hcs⟩
    rw [ih (acc ++ [c]) hcs ?_]
    · rw [List.append_assoc, List.singleton_append]
    · intro c' hc' e he
      rcases List.mem_append.mp he with h | h
      · exact hacc c' (List.mem_cons_of_mem c hc') e h
      · rcases List.mem_singleton.mp h with rfl
        exact hc c' hc'

theorem filterDedup_of_clean (st : Bool) (thr tw : ℚ) (l : List SubtitleMatch)
    (h : l.Pairwise (notDupOf st thr tw)) : filterDedup st thr tw l = l := by
  rw [filterDedup, filterDedupAux_of_clean st thr tw l [] h (by simp), List.nil_append]

/-! ## Per-file isolation of deduplication -/

theorem filter_flatten_eq {α : Type} (p : α → Bool) (L : List (List α)) :
    (L.flatten).filter p = (L.map (List.filter p)).flatten := by
  induction L with
  | nil => rfl
  | cons x L ih => simp [List.filter_append, ih]

theorem flatten_map_single {α : Type} (L : List String) (h : String → List α) (p : String)
    (hnd : L.Nodup) (hz : ∀ q ∈ L, q ≠ p → h q = []) :
    (L.map h).flatten = if p ∈ L then h p else [] := by
  induction L with
  | nil => simp
  | cons q L ih =>
    rcases List.nodup_cons.mp hnd with ⟨hq, hnd'⟩
    rw [List.map_cons, List.flatten_cons,
      ih hnd' (fun q' hq' hne => hz q' (List.mem_cons_of_mem q hq') hne)]
    by_cases hqp : q = p
    · subst hqp
      rw [if_neg hq, List.append_nil, if_pos (List.mem_cons_self q L)]
    · rw [hz q (List.mem_cons_self q L) hqp, List.nil_append]
      by_cases hpL : p ∈ L
      · rw [if_pos hpL, if_pos (List.mem_cons_of_mem q hpL)]
      · rw [if_neg hpL, if_neg ?_]
        intro hc
        rcases List.mem_cons.mp hc with h' | h'
        · exact hqp h'.symm
        · exact hpL h'

theorem mem_filterDedup_sort (st : Bool) (thr tw : ℚ) (l : List SubtitleMatch)
    (x : SubtitleMatch) (hx : x ∈ filterDedup st thr tw (sortByTime l)) : x ∈ l :=
  (sortByTime_perm l).mem_iff.mp ((filterDedup_sublist st thr tw (sortByTime l)).subset hx)

theorem mem_filter_pathIs (l : List SubtitleMatch) (p : String) (x : SubtitleMatch)
    (hx : x ∈ l.filter (pathIs p)) : x.file_path = p := by
  have := (List.mem_filter.mp hx).2
  exact of_decide_eq_true this

/-- The deduplicated output restricted to one file path is a function of
just that file's matches: group, sort, filter.  In particular matches from
different files are never compared. -/
theorem dedup_filter_path (st : Bool) (thr tw : ℚ) (ms : List SubtitleMatch) (p : String) :
    (deduplicate_matches ms thr tw st).filter (pathIs p)
      = filterDedup st thr tw (sortByTime (ms.filter (pathIs p))) := by
  by_cases hms : ms = []
  · subst hms; rfl
  · rw [deduplicate_matches, if_neg hms, groupByFile_eq, List.map_map, filter_flatten_eq,
      List.map_map]
    have hz : ∀ q ∈ firstPaths ms, q ≠ p →
        (List.filter (pathIs p) ∘ ((fun g => filterDedup st thr tw (sortByTime g.2)) ∘
          fun q => (q, ms.filter (pathIs q)))) q = [] := by
      intro q hq hne
      simp only [Function.comp_apply]
      refine List.filter_eq_nil_iff.mpr ?_
      intro x hx hpx
      have hxq : x.file_path = q :=
        mem_filter_pathIs ms q x (mem_filterDedup_sort st thr tw _ x hx)
      exact absurd (hxq ▸ of_decide_eq_true hpx : q = p) hne
    rw [flatten_map_single (firstPaths ms) _ p (firstPaths_nodup ms) hz]
    by_cases hp : p ∈ firstPaths ms
    · rw [if_pos hp]
      simp only [Function.comp_apply]
      refine List.filter_eq_self.mpr ?_
      intro x hx
      have hxp : x.file_path = p :=
        mem_filter_pathIs ms p x (mem_filterDedup_sort st thr tw _ x hx)
      simp [pathIs, hxp]
    · rw [if_neg hp, filter_pathIs_eq_nil ms p hp]
      rfl

/-! ## First-encounter order of the deduplicated output -/

theorem foldl_paths_const_block (p : String) (b : List SubtitleMatch) (hb : b ≠ [])
    (hc : ∀ m ∈ b, m.file_path = p) (acc : List String) :
    b.foldl (fun acc m => if m.file_path ∈ acc then acc else acc ++ [m.file_path]) acc
      = if p ∈ acc then acc else acc ++ [p] := by
  induction b generalizing acc with
  | nil => exact absurd rfl hb
  | cons m b ih =>
    rw [List.foldl_cons]
    have hm : m.file_path = p := hc m (List.mem_cons_self m b)
    by_cases hbnil : b = []
    · subst hbnil
      rw [List.foldl_nil, hm]
    · rw [ih hbnil (fun x hx => hc x (List.mem_cons_of_mem m hx)), hm]
      by_cases hpacc : p ∈ acc
      · simp [hpacc]
      · simp [hpacc]

theorem firstPaths_flatten (blocks : List (String × List SubtitleMatch))
    (hne : ∀ b ∈ blocks, b.2 ≠ [])
    (hconst : ∀ b ∈ blocks, ∀ m ∈ b.2, m.file_path = b.1)
    (hnd : (blocks.map Prod.fst).Nodup) :
    firstPaths (blocks.map Prod.snd).flatten = blocks.map Prod.fst := by
  suffices hgen : ∀ (bs : List (String × List SubtitleMatch)) (acc : List String),
      (∀ b ∈ bs, b.2 ≠ []) → (∀ b ∈ bs, ∀ m ∈ b.2, m.file_path = b.1) →
      (bs.map Prod.fst).Nodup → (∀ q ∈ bs.map Prod.fst, q ∉ acc) →
      ((bs.map Prod.snd).flatten).foldl
          (fun acc m => if m.file_path ∈ acc then acc else acc ++ [m.file_path]) acc
        = acc ++ bs.map Prod.fst by
    simpa [firstPaths] using hgen blocks [] hne hconst hnd (by simp)
  intro bs
  induction bs with
  | nil => intro acc _ _ _ _; simp
  | cons x bs ih =>
    intro acc hne' hconst' hnd' hacc
    rw [List.map_cons, List.map_cons, List.flatten_cons, List.foldl_append]
    have hx : x.2.foldl
        (fun acc m => if m.file_path ∈ acc then acc else acc ++ [m.file_path]) acc
        = acc ++ [x.1] := by
      rw [foldl_paths_const_block x.1 x.2 (hne' x (List.mem_cons_self x bs))
        (hconst' x (List.mem_cons_self x bs)) acc]
      rw [if_neg (hacc x.1 (List.mem_cons_self x.1 _))]
    rw [hx, ih (acc ++ [x.1]) (fun b hb => hne' b (List.mem_cons_of_mem x hb))
      (fun b hb => hconst' b (List.mem_cons_of_mem x hb)) (List.nodup_cons.mp hnd').2 ?_]
    · rw [List.append_assoc, List.singleton_append]
    · intro q hq hqmem
      rcases List.mem_append.mp hqmem with h | h
      · exact hacc q (List.mem_cons_of_mem _ hq) h
      · rcases List.mem_singleton.mp h with rfl
        exact (List.nodup_cons.mp hnd').1 hq

theorem filter_flatten_blocks (blocks : List (String × List SubtitleMatch))
    (hconst : ∀ b ∈ blocks, ∀ m ∈ b.2, m.file_path = b.1)
    (hnd : (blocks.map Prod.fst).Nodup) (b : String × List SubtitleMatch)
    (hb : b ∈ blocks) :
    ((blocks.map Prod.snd).flatten).filter (pathIs b.1) = b.2 := by
  induction blocks with
  | nil => cases hb
  | cons x bs ih =>
    rw [List.map_cons, List.flatten_cons, List.filter_append]
    have hx1 : x.1 ∉ bs.map Prod.fst := (List.nodup_cons.mp hnd).1
    rcases List.mem_cons.mp hb with rfl | hb'
    · rw [List.filter_eq_self.mpr
        (fun m hm => by simp [pathIs, hconst b (List.mem_cons_self b bs) m hm])]
      have hrest : ((bs.map Prod.snd).flatten).filter (pathIs b.1) = [] := by
        refine List.filter_eq_nil_iff.mpr ?_
        intro m hm hpm
        rcases List.mem_flatten.mp hm with ⟨l, hl, hml⟩
        rcases List.mem_map.mp hl with ⟨b', hb', rfl⟩
        have hmb : m.file_path = b'.1 := hconst b' (List.mem_cons_of_mem b hb') m hml
        have : b.1 ∈ bs.map Prod.fst := by
          rw [← (hmb ▸ of_decide_eq_true hpm : b'.1 = b.1)]
          exact List.mem_map.mpr ⟨b', hb', rfl⟩
        exact hx1 this
      rw [hrest, List.append_nil]
    · have hfx : x.2.filter (pathIs b.1) = [] := by
        refine List.filter_eq_nil_iff.mpr ?_
        intro m hm hpm
        have hmx : m.file_path = x.1 := hconst x (List.mem_cons_self x bs) m hm
        have hbx : x.1 = b.1 := hmx ▸ of_decide_eq_true hpm
        refine hx1 ?_
        rw [hbx]
        exact List.mem_map.mpr ⟨b, hb', rfl⟩
      rw [hfx, List.nil_append]
      exact ih (fun b'' h'' => hconst b'' (List.mem_cons_of_mem x h''))
        (List.nodup_cons.mp hnd).2 hb'

theorem groupByFile_flatten (blocks : List (String × List SubtitleMatch))
    (hne : ∀ b ∈ blocks, b.2 ≠ [])
    (hconst : ∀ b ∈ blocks, ∀ m ∈ b.2, m.file_path = b.1)
    (hnd : (blocks.map Prod.fst).Nodup) :
    groupByFile (blocks.map Prod.snd).flatten = blocks := by
  rw [groupByFile_eq, firstPaths_flatten blocks hne hconst hnd]
  conv_rhs => rw [← List.map_id blocks]
  rw [List.map_map]
  refine List.map_congr_left ?_
  intro b hb
  simp only [Function.comp_apply, id_eq]
  rw [filter_flatten_blocks blocks hconst hnd b hb]

/-- The blocks the deduplicator produces: one per first-encountered path,
carrying the filtered, sorted, deduplicated matches of that path. -/
def dedupBlocks (st : Bool) (thr tw : ℚ) (ms : List SubtitleMatch) :
    List (String × List SubtitleMatch) :=
  (firstPaths ms).map
    (fun p => (p, filterDedup st thr tw (sortByTime (ms.filter (pathIs p)))))

theorem dedupBlocks_snd_ne (st : Bool) (thr tw : ℚ) (ms : List SubtitleMatch) :
    ∀ b ∈ dedupBlocks st thr tw ms, b.2 ≠ [] := by
  rintro b hb
  rcases List.mem_map.mp hb with ⟨p, hp, rfl⟩
  simp only
  rcases (mem_firstPaths ms p).mp hp with ⟨m, hm, hpm⟩
  have hfil : ms.filter (pathIs p) ≠ [] := by
    intro hnil
    have : m ∈ ms.filter (pathIs p) := List.mem_filter.mpr ⟨hm, by simp [pathIs, hpm]⟩
    rw [hnil] at this
    cases this
  have hsortne : sortByTime (ms.filter (pathIs p)) ≠ [] := by
    intro hnil
    have hlen := (sortByTime_perm (ms.filter (pathIs p))).length_eq
    rw [hnil] at hlen
    exact hfil (List.length_eq_zero.mp hlen.symm)
  rcases List.exists_cons_of_ne_nil hsortne with ⟨c, cs, hcons⟩
  rw [hcons]
  exact filterDedup_ne_nil st thr tw c cs

theorem dedupBlocks_const (st : Bool) (thr tw : ℚ) (ms : List SubtitleMatch) :
    ∀ b ∈ dedupBlocks st thr tw ms, ∀ m ∈ b.2, m.file_path = b.1 := by
  rintro b hb m hm
  rcases List.mem_map.mp hb with ⟨p, hp, rfl⟩
  exact mem_filter_pathIs ms p m (mem_filterDedup_sort st thr tw _ m hm)

theorem dedupBlocks_fst (st : Bool) (thr tw : ℚ) (ms : List SubtitleMatch) :
    (dedupBlocks st thr tw ms).map Prod.fst = firstPaths ms := by
  simp only [dedupBlocks, List.map_map]
  exact List.map_id _ ▸ List.map_congr_left (fun p _ => rfl)

theorem dedup_eq_flatten_blocks (st : Bool) (thr tw : ℚ) (ms : List SubtitleMatch)
    (hms : ms ≠ []) :
    deduplicate_matches ms thr tw st = ((dedupBlocks st thr tw ms).map Prod.snd).flatten := by
  rw [deduplicate_matches, if_neg hms, groupByFile_eq, List.map_map, dedupBlocks, List.map_map]
  rfl

/-- C5: deduplication emits its surviving matches grouped by file in the
first-encounter order of file paths of the input (no cross-file
reordering), and within each file the survivors are sorted by parsed start
time ascending, whatever the input order was. -/
theorem C5_dedup_ordering (ms : List SubtitleMatch) (thr tw : ℚ) (st : Bool) :
    firstPaths (deduplicate_matches ms thr tw st) = firstPaths ms ∧
    ∀ p, ((deduplicate_matches ms thr tw st).filter (pathIs p)).Pairwise timeLE := by
  constructor
  · by_cases hms : ms = []
    · subst hms; rfl
    · rw [dedup_eq_flatten_blocks st thr tw ms hms,
        firstPaths_flatten (dedupBlocks st thr tw ms) (dedupBlocks_snd_ne st thr tw ms)
          (dedupBlocks_const st thr tw ms)
          (by rw [dedupBlocks_fst]; exact firstPaths_nodup ms),
        dedupBlocks_fst]
  · intro p
    rw [dedup_filter_path st thr tw ms p]
    exact List.Pairwise.sublist (filterDedup_sublist st thr tw _)
      (sortByTime_sorted (ms.filter (pathIs p)))

/-- C6: deduplication treats files in isolation — its output restricted to
one file path depends only on the input matches with that path — and two
matches that differ only in file path are never deduplicated against each
other: both survive. -/
theorem C6_cross_file_isolation (thr tw : ℚ) (st : Bool) :
    (∀ (ms : List SubtitleMatch) (p : String),
      (deduplicate_matches ms thr tw st).filter (pathIs p)
        = filterDedup st thr tw (sortByTime (ms.filter (pathIs p)))) ∧
    (∀ m1 m2 : SubtitleMatch, m1.file_path ≠ m2.file_path →
      deduplicate_matches [m1, m2] thr tw st = [m1, m2]) := by
  refine ⟨fun ms p => dedup_filter_path st thr tw ms p, ?_⟩
  intro m1 m2 hne
  rw [deduplicate_matches, if_neg (by simp)]
  have hg : groupByFile [m1, m2] = [(m1.file_path, [m1]), (m2.file_path, [m2])] := by
    simp [groupByFile, addToGroups, hne]
  rw [hg]
  rfl

theorem C6_witness :
    deduplicate_matches
        [⟨"a.vtt", "00:00:01,000 --> 00:00:02,000", 1, "same text"⟩,
          ⟨"b.vtt", "00:00:01,000 --> 00:00:02,000", 1, "same text"⟩] (4/5) 30 true
      = [⟨"a.vtt", "00:00:01,000 --> 00:00:02,000", 1, "same text"⟩,
          ⟨"b.vtt", "00:00:01,000 --> 00:00:02,000", 1, "same text"⟩] :=
  (C6_cross_file_isolation (4/5) 30 true).2
    ⟨"a.vtt", "00:00:01,000 --> 00:00:02,000", 1, "same text"⟩
    ⟨"b.vtt", "00:00:01,000 --> 00:00:02,000", 1, "same text"⟩ (by decide)

/-- C8: deduplication is idempotent — applied to its own output (for the
same threshold, window and mode) it removes nothing further.  The output's
groups are already contiguous and path-distinct, each group is already
sorted by start time, and no retained match is a duplicate of an earlier
retained match, so every match survives the second pass. -/
theorem C8_dedup_idempotent (ms : List SubtitleMatch) (thr tw : ℚ) (st : Bool) :
    deduplicate_matches (deduplicate_matches ms thr tw st) thr tw st
      = deduplicate_matches ms thr tw st := by
  by_cases hms : ms = []
  · subst hms; rfl
  by_cases hout : deduplicate_matches ms thr tw st = []
  · rw [hout]; rfl
  have hblocks := dedup_eq_flatten_blocks st thr tw ms hms
  have hgroup : groupByFile (deduplicate_matches ms thr tw st) = dedupBlocks st thr tw ms := by
    rw [hblocks]
    exact groupByFile_flatten _ (dedupBlocks_snd_ne st thr tw ms)
      (dedupBlocks_const st thr tw ms)
      (by rw [dedupBlocks_fst]; exact firstPaths_nodup ms)
  rw [deduplicate_matches, if_neg hout, hgroup, hblocks]
  congr 1
  refine List.map_congr_left ?_
  intro b hb
  rcases List.mem_map.mp hb with ⟨p, hp, rfl⟩
  simp only
  have hsorted : (filterDedup st thr tw (sortByTime (ms.filter (pathIs p)))).Pairwise timeLE :=
    List.Pairwise.sublist (filterDedup_sublist st thr tw _) (sortByTime_sorted _)
  rw [sortByTime_of_sorted _ hsorted,
    filterDedup_of_clean st thr tw _ (filterDedup_pairwise st thr tw _)]

/-! ## The orchestrator on an empty search term (C10) -/

theorem flatMap_singleton_map {α β : Type} (l : List α) (f : α → β) :
    (l.flatMap (fun x => [f x])) = l.map f := by
  induction l with
  | nil => rfl
  | cons x l ih => simp [ih]

/-- C10, counterexample.  With deduplication left at its default (enabled),
the orchestrator does not return one match per cue: an SRT file with two
cues of identical text two seconds apart yields a single match for the
empty search term under the default parameters, because the second cue is
removed as a duplicate of the first. -/
theorem C10_counterexample :
    (parse_subtitle_file "a.srt"
        "1\n0:0:1 --> 0:0:2\nhello\n\n2\n0:0:3 --> 0:0:4\nhello").length = 2 ∧
    search_in_subtitle_files
        [("a.srt", "1\n0:0:1 --> 0:0:2\nhello\n\n2\n0:0:3 --> 0:0:4\nhello")]
        "" false true (4/5) 30 true
      = [⟨"a.srt", "0:0:1 --> 0:0:2", 1, "hello"⟩] := by
  have hp1 : parse_timestamp "0:0:1 --> 0:0:2" = 1 := by
    rw [parse_timestamp_eval "0:0:1 --> 0:0:2" "0".data "0".data "1".data []
      (false, 0, 0, 0) (false, 0, 0, 0) (false, 1, 0, 0)
      (by decide) (by decide) (by decide) (by decide)]
    norm_num [ratOfParts]
  have hp2 : parse_timestamp "0:0:3 --> 0:0:4" = 3 := by
    rw [parse_timestamp_eval "0:0:3 --> 0:0:4" "0".data "0".data "3".data []
      (false, 0, 0, 0) (false, 0, 0, 0) (false, 3, 0, 0)
      (by decide) (by decide) (by decide) (by decide)]
    norm_num [ratOfParts]
  have hsim : text_similarity "hello" "hello" = 1 := by
    rw [text_similarity_eval "hello" "hello" 1 1 (by decide) (by decide) (by decide) (by decide)]
    norm_num
  refine ⟨by decide, ?_⟩
  have hfound : (([("a.srt", "1\n0:0:1 --> 0:0:2\nhello\n\n2\n0:0:3 --> 0:0:4\nhello")] :
        List (String × String)).flatMap
        (fun fp => (parse_subtitle_file fp.1 fp.2).flatMap (matchesOfCue fp.1 "" false)))
      = [⟨"a.srt", "0:0:1 --> 0:0:2", 1, "hello"⟩,
          ⟨"a.srt", "0:0:3 --> 0:0:4", 2, "hello"⟩] := by decide
  calc search_in_subtitle_files
          [("a.srt", "1\n0:0:1 --> 0:0:2\nhello\n\n2\n0:0:3 --> 0:0:4\nhello")]
          "" false true (4/5) 30 true
      = deduplicate_matches (([("a.srt", "1\n0:0:1 --> 0:0:2\nhello\n\n2\n0:0:3 --> 0:0:4\nhello")] :
          List (String × String)).flatMap
          (fun fp => (parse_subtitle_file fp.1 fp.2).flatMap (matchesOfCue fp.1 "" false)))
          (4/5) 30 true := rfl
    _ = deduplicate_matches
          [⟨"a.srt", "0:0:1 --> 0:0:2", 1, "hello"⟩, ⟨"a.srt", "0:0:3 --> 0:0:4", 2, "hello"⟩]
          (4/5) 30 true := by rw [hfound]
    _ = [⟨"a.srt", "0:0:1 --> 0:0:2", 1, "hello"⟩] := by
        rw [deduplicate_matches, if_neg (by simp)]
        have hg : groupByFile
            [⟨"a.srt", "0:0:1 --> 0:0:2", 1, "hello"⟩, ⟨"a.srt", "0:0:3 --> 0:0:4", 2, "hello"⟩]
            = [("a.srt",
                [⟨"a.srt", "0:0:1 --> 0:0:2", 1, "hello"⟩,
                  ⟨"a.srt", "0:0:3 --> 0:0:4", 2, "hello"⟩])] := by decide
        rw [hg, List.map_cons, List.map_nil]
        have hsorted : sortByTime
            [⟨"a.srt", "0:0:1 --> 0:0:2", 1, "hello"⟩, ⟨"a.srt", "0:0:3 --> 0:0:4", 2, "hello"⟩]
            = [⟨"a.srt", "0:0:1 --> 0:0:2", 1, "hello"⟩,
                ⟨"a.srt", "0:0:3 --> 0:0:4", 2, "hello"⟩] := by
          refine sortByTime_of_sorted _ ?_
          refine List.pairwise_cons.mpr ⟨?_, List.pairwise_singleton _ _⟩
          intro x hx
          rcases List.mem_singleton.mp hx with rfl
          show parse_timestamp "0:0:1 --> 0:0:2" ≤ parse_timestamp "0:0:3 --> 0:0:4"
          rw [hp1, hp2]
          norm_num
        have hdup : isDuplicatePair true (4/5) 30
            ⟨"a.srt", "0:0:3 --> 0:0:4", 2, "hello"⟩
            ⟨"a.srt", "0:0:1 --> 0:0:2", 1, "hello"⟩ = true := by
          simp only [isDuplicatePair, eq_self_iff_true, if_true, decide_eq_true_eq]
          left
          constructor
          · show (4 : ℚ)/5 ≤ text_similarity "hello" "hello"
            rw [hsim]; norm_num
          · show |parse_timestamp "0:0:3 --> 0:0:4" - parse_timestamp "0:0:1 --> 0:0:2"| ≤ 30
            rw [hp1, hp2]; norm_num
        simp only
        rw [hsorted, filterDedup, filterDedupAux, if_neg (by simp), List.nil_append,
          filterDedupAux]
        rw [if_pos (by simp [hdup]), filterDedupAux]
        simp

/-- C10, amended: with deduplication disabled, the orchestrator on the empty
search term returns exactly one match per parsed cue of every file, in
order; the engine does not reject the empty term (the empty string is a
substring of every text), and each match carries the cue's original,
un-lowercased text whether or not the search is case-sensitive.  With
deduplication enabled (the default) the match list is further thinned by
the deduplicator. -/
theorem C10_empty_term_matches_every_cue (files : List (String × String)) (cs : Bool)
    (thr tw : ℚ) (st : Bool) :
    search_in_subtitle_files files "" cs false thr tw st
      = files.flatMap (fun fp => (parse_subtitle_file fp.1 fp.2).map
          (fun sub => ⟨fp.1, sub.timestamp, sub.number, sub.text⟩)) := by
  rw [search_in_subtitle_files]
  simp only [Bool.false_eq_true, if_false]
  congr 1
  funext fp
  have hone : matchesOfCue fp.1 "" cs
      = fun sub => [(⟨fp.1, sub.timestamp, sub.number, sub.text⟩ : SubtitleMatch)] := by
    funext sub
    cases cs <;> rfl
  rw [hone, flatMap_singleton_map]
